import Mathlib

/-!
Verification of the Pennyboy currency bot (src/bot.py, src/models/user.py).

The bot keeps one persisted record per user (`User`), grants a cooldown-gated
daily reward (`daily`), and resolves a dice wager (`roll`).  Times are modelled
as integer epoch seconds; a Python `timedelta` of `t` seconds has
`days = ⌊t / 86400⌋` (floor division) and `seconds = t mod 86400` (the
day-less seconds field), which we render with `Int.fdiv` and `Int.emod`.
Randomness is modelled by passing the two die rolls as explicit inputs.
Python's arbitrary-precision integers are modelled as `Int`.
-/

namespace Pennyboy

/-- The persisted account record, from `src/models/user.py` (class `User`):
`user_id` string key, `balance` integer, `last_daily` nullable timestamp,
`total_earned` integer. -/
structure User where
  user_id : String
  balance : Int
  last_daily : Option Int
  total_earned : Int
deriving Repr, DecidableEq

/-- ASCII fragment of Python `str.lower`: map A-Z to a-z, leave the rest. -/
def pyLowerChar (c : Char) : Char :=
  if 'A' ≤ c ∧ c ≤ 'Z' then Char.ofNat (c.toNat + 32) else c

/-- `amount.lower()` on the ASCII fragment. -/
def pyLower (s : String) : String :=
  String.mk (s.data.map pyLowerChar)

/-- Python whitespace characters stripped by `int(str)` (ASCII fragment). -/
def isPySpace (c : Char) : Bool :=
  c = ' ' || c = Char.ofNat 9 || c = Char.ofNat 10 ||
    c = Char.ofNat 13 || c = Char.ofNat 11 || c = Char.ofNat 12

/-- Value of an ASCII decimal digit. -/
def digitVal (c : Char) : Option Nat :=
  if '0' ≤ c ∧ c ≤ '9' then some (c.toNat - 48) else none

/-- Digits of a Python integer literal after the first digit: single
underscores are allowed between digits only. -/
def pyDigitsRest : List Char → Nat → Option Nat
  | [], acc => some acc
  | '_' :: c :: cs, acc =>
      match digitVal c with
      | some d => pyDigitsRest cs (acc * 10 + d)
      | none => none
  | ['_'], _ => none
  | c :: cs, acc =>
      match digitVal c with
      | some d => pyDigitsRest cs (acc * 10 + d)
      | none => none

/-- An unsigned run of digits: at least one digit, then `pyDigitsRest`. -/
def pyDigits : List Char → Option Nat
  | [] => none
  | c :: cs =>
      match digitVal c with
      | some d => pyDigitsRest cs d
      | none => none

/-- Optional sign followed by digits. -/
def pySigned : List Char → Option Int
  | '+' :: cs => (pyDigits cs).map (fun n => (n : Int))
  | '-' :: cs => (pyDigits cs).map (fun n => -(n : Int))
  | cs => (pyDigits cs).map (fun n => (n : Int))

/-- Model of CPython `int(str)` on the ASCII fragment: strip surrounding
whitespace, optional sign, decimal digits with single underscores between
digits; `none` models the `ValueError`. -/
def pythonInt (s : String) : Option Int :=
  pySigned (((s.data.dropWhile isPySpace).reverse.dropWhile isPySpace).reverse)

/-- Result of the `/daily` command, from `daily` in `src/bot.py`:
either the cooldown message carrying hours and minutes left, or success
carrying the amount granted and the new balance. -/
inductive ClaimResult where
  | cooldown (hours : Int) (minutes : Int)
  | granted (amount : Int) (newBalance : Int)
deriving Repr, DecidableEq

/-- `daily` from `src/bot.py` (lines 99-128), acting on one account.
`now = datetime.utcnow()` and the configured reward are inputs.
The Python check is `user.last_daily and (now - user.last_daily).days < 1`;
on cooldown it reports `time_left = (last_daily + 1 day) - now` via
`hours = time_left.seconds // 3600`, `minutes = (time_left.seconds % 3600) // 60`,
where `.seconds` is the day-less seconds field `time_left mod 86400`.
On success: `balance += amount`, `total_earned += amount`, `last_daily = now`. -/
def claimDaily (user : User) (now : Int) (dailyAmount : Int) : ClaimResult × User :=
  match user.last_daily with
  | some last =>
      if Int.fdiv (now - last) 86400 < 1 then
        let time_left : Int := (last + 86400) - now
        let secondsField : Int := Int.emod time_left 86400
        (ClaimResult.cooldown (secondsField / 3600) ((secondsField % 3600) / 60), user)
      else
        let user' : User :=
          { user with balance := user.balance + dailyAmount,
                      total_earned := user.total_earned + dailyAmount,
                      last_daily := some now }
        (ClaimResult.granted dailyAmount user'.balance, user')
  | none =>
      let user' : User :=
        { user with balance := user.balance + dailyAmount,
                    total_earned := user.total_earned + dailyAmount,
                    last_daily := some now }
      (ClaimResult.granted dailyAmount user'.balance, user')

/-- Validation failures of the `/roll` command, from `roll` in `src/bot.py`:
the three early-return messages. -/
inductive BetError where
  | invalidStake
  | nonPositiveStake
  | insufficientFunds
deriving Repr, DecidableEq

/-- Outcome tag of a resolved wager (`result` in `roll`). -/
inductive BetOutcome where
  | won
  | lost
  | tied
deriving Repr, DecidableEq

/-- Payload of a resolved wager: both rolls, the outcome tag, the signed
net change (`winnings`), and the resulting balance. -/
structure BetSuccess where
  playerRoll : Nat
  houseRoll : Nat
  outcome : BetOutcome
  netChange : Int
  newBalance : Int
deriving Repr, DecidableEq

/-- Stake resolution in `roll`: `if amount.lower() == 'all': bet = user.balance
else: bet = int(amount)`, with `ValueError` as `none`. -/
def resolveStake (user : User) (amount : String) : Option Int :=
  if pyLower amount = "all" then some user.balance else pythonInt amount

/-- `roll` from `src/bot.py` (lines 147-210), acting on one account.
The two uniform draws `random.randint(1, 6)` are passed in as `userRoll`
and `botRoll`.  Validation in source order: parse (or the all sentinel),
then `bet_amount <= 0`, then `bet_amount > user.balance`; each failure
returns before any mutation.  Win adds the stake, loss subtracts it,
a tie changes nothing. -/
def placeBet (user : User) (amount : String) (userRoll botRoll : Nat) :
    (BetError ⊕ BetSuccess) × User :=
  match resolveStake user amount with
  | none => (Sum.inl BetError.invalidStake, user)
  | some bet =>
      if bet ≤ 0 then (Sum.inl BetError.nonPositiveStake, user)
      else if bet > user.balance then (Sum.inl BetError.insufficientFunds, user)
      else if userRoll > botRoll then
        let user' : User := { user with balance := user.balance + bet }
        (Sum.inr ⟨userRoll, botRoll, BetOutcome.won, bet, user'.balance⟩, user')
      else if userRoll < botRoll then
        let user' : User := { user with balance := user.balance - bet }
        (Sum.inr ⟨userRoll, botRoll, BetOutcome.lost, -bet, user'.balance⟩, user')
      else
        (Sum.inr ⟨userRoll, botRoll, BetOutcome.tied, 0, user.balance⟩, user)

/-- The ledger store: one record per user identifier, as queried by
`select(User).where(User.user_id == str(user_id))`. -/
def Store : Type := String → Option User

/-- `get_user` from `src/bot.py` (lines 53-65): look the identifier up;
when absent, construct a fresh record with `balance=0`, `total_earned=0`
(and `last_daily` left at its nullable default) and stage it in the store. -/
def get_user (store : Store) (user_id : String) : User × Store :=
  match store user_id with
  | some user => (user, store)
  | none =>
      let user : User := { user_id := user_id, balance := 0,
                           last_daily := none, total_earned := 0 }
      (user, fun uid => if uid = user_id then some user else store uid)

/-- The `/balance` command (`balance` in `src/bot.py`, lines 131-143):
materialize the account and report its balance; it has no failure path. -/
def getBalance (store : Store) (user_id : String) : Int × Store :=
  let r := get_user store user_id
  (r.1.balance, r.2)

/-- One `/roll` invocation viewed through its account effect only: the
stake text and the two die draws. -/
def betStep (user : User) (b : String × Nat × Nat) : User :=
  (placeBet user b.1 b.2.1 b.2.2).2

/-- A sequence of `/roll` invocations on one account. -/
def runBets (user : User) (bets : List (String × Nat × Nat)) : User :=
  bets.foldl betStep user

/-- An operation on one account: a `/daily` call (with its wall-clock time
and configured reward) or a `/roll` call (with its stake text and draws). -/
inductive Op where
  | dailyOp (now : Int) (amount : Int)
  | betOp (amount : String) (userRoll botRoll : Nat)
deriving Repr, DecidableEq

/-- The account after one operation. -/
def runOp (user : User) : Op → User
  | Op.dailyOp now amt => (claimDaily user now amt).2
  | Op.betOp s ur br => (placeBet user s ur br).2

/-- The account after a sequence of operations. -/
def runOps (user : User) (ops : List Op) : User :=
  ops.foldl runOp user

/-- The reward amount an operation grants: the amount carried by a
successful `/daily`, and `0` for a cooldown refusal or any `/roll`. -/
def grantOf (user : User) : Op → Int
  | Op.dailyOp now amt =>
      match (claimDaily user now amt).1 with
      | ClaimResult.granted a _ => a
      | ClaimResult.cooldown _ _ => 0
  | Op.betOp _ _ _ => 0

/-- Sum of the reward amounts granted by the successful `/daily` calls
along a sequence of operations. -/
def grantedTotal (user : User) : List Op → Int
  | [] => 0
  | op :: ops => grantOf user op + grantedTotal (runOp user op) ops

/-- Helper: a single `/roll` invocation never takes a nonnegative balance
below zero (failures leave the account untouched; a loss subtracts a stake
already bounded by the balance). -/
theorem betStep_balance_nonneg (user : User) (b : String × Nat × Nat)
    (h0 : 0 ≤ user.balance) : 0 ≤ (betStep user b).balance := by
  unfold betStep placeBet
  rcases hres : resolveStake user b.1 with _ | bet
  · simpa using h0
  · simp only []
    split_ifs <;> simp_all
    omega

/-- Claim C1: a `/roll` that passes validation with resolved stake `bet` and
die draws in `[1,6]` satisfies `new_balance = old_balance + netChange`,
where `netChange` is `+bet` on a win (`playerRoll > houseRoll`), `-bet` on a
loss (`playerRoll < houseRoll`), and `0` on a push (equal rolls), and the
outcome tag matches this case analysis. -/
theorem placeBet_zero_sum (user : User) (amount : String) (userRoll botRoll : Nat)
    (bet : Int) (hres : resolveStake user amount = some bet)
    (hpos : 0 < bet) (hle : bet ≤ user.balance)
    (_hu : 1 ≤ userRoll ∧ userRoll ≤ 6) (_hb : 1 ≤ botRoll ∧ botRoll ≤ 6) :
    ∃ s : BetSuccess,
      placeBet user amount userRoll botRoll =
        (Sum.inr s, { user with balance := user.balance + s.netChange }) ∧
      s.newBalance = user.balance + s.netChange ∧
      s.playerRoll = userRoll ∧ s.houseRoll = botRoll ∧
      (botRoll < userRoll → s.outcome = BetOutcome.won ∧ s.netChange = bet) ∧
      (userRoll < botRoll → s.outcome = BetOutcome.lost ∧ s.netChange = -bet) ∧
      (userRoll = botRoll → s.outcome = BetOutcome.tied ∧ s.netChange = 0) := by
  unfold placeBet
  rw [hres]
  simp only []
  rw [if_neg (by omega), if_neg (by omega)]
  rcases Nat.lt_trichotomy botRoll userRoll with h | h | h
  · rw [if_pos h]
    exact ⟨⟨userRoll, botRoll, BetOutcome.won, bet, user.balance + bet⟩, rfl, rfl, rfl, rfl,
      fun _ => ⟨rfl, rfl⟩, fun hc => absurd hc (by omega), fun hc => absurd hc (by omega)⟩
  · rw [if_neg (by omega), if_neg (by omega)]
    refine ⟨⟨userRoll, botRoll, BetOutcome.tied, 0, user.balance⟩, by simp, by simp, rfl, rfl,
      fun hc => absurd hc (by omega), fun hc => absurd hc (by omega), fun _ => ⟨rfl, rfl⟩⟩
  · rw [if_neg (by omega), if_pos h]
    refine ⟨⟨userRoll, botRoll, BetOutcome.lost, -bet, user.balance - bet⟩,
      by simp [sub_eq_add_neg], by simp [sub_eq_add_neg], rfl, rfl,
      fun hc => absurd hc (by omega), fun _ => ⟨rfl, rfl⟩, fun hc => absurd hc (by omega)⟩

/-- Witness for C1: a 40-coin bet from a balance of 100 with rolls 5 vs 2. -/
theorem placeBet_zero_sum_witness :
    ∃ s : BetSuccess,
      placeBet ⟨"u", 100, none, 0⟩ "40" 5 2 =
        (Sum.inr s, { user_id := "u", balance := 100 + s.netChange,
                      last_daily := none, total_earned := 0 }) ∧
      s.newBalance = 100 + s.netChange ∧
      s.playerRoll = 5 ∧ s.houseRoll = 2 ∧
      (2 < 5 → s.outcome = BetOutcome.won ∧ s.netChange = 40) ∧
      (5 < 2 → s.outcome = BetOutcome.lost ∧ s.netChange = -40) ∧
      (5 = 2 → s.outcome = BetOutcome.tied ∧ s.netChange = 0) :=
  placeBet_zero_sum ⟨"u", 100, none, 0⟩ "40" 5 2 40 (by decide) (by decide) (by decide)
    (by decide) (by decide)

/-- Claim C2: starting from a nonnegative balance, the balance after each
`/roll` call of any sequence is still nonnegative. -/
theorem runBets_balance_nonneg (user : User) (bets pre suf : List (String × Nat × Nat))
    (_hsplit : bets = pre ++ suf) (h0 : 0 ≤ user.balance) :
    0 ≤ (runBets user pre).balance := by
  clear _hsplit
  induction pre generalizing user with
  | nil => simpa [runBets] using h0
  | cons b bs ih => exact ih (betStep user b) (betStep_balance_nonneg user b h0)

/-- Witness for C2: an all-in losing bet from a balance of 10. -/
theorem runBets_balance_nonneg_witness :
    0 ≤ (runBets ⟨"u", 10, none, 0⟩ [("all", 2, 5)]).balance :=
  runBets_balance_nonneg ⟨"u", 10, none, 0⟩ [("all", 2, 5)] [("all", 2, 5)] [] rfl (by decide)

/-- Claim C3: with `now` at or after `last_daily` when it is present,
`/daily` succeeds iff `last_daily` is absent or at least 24 hours
(86400 seconds) have elapsed; on success the exact effects are
`balance += amount`, `total_earned += amount`, `last_daily = now`, and the
result carries the amount granted and the new balance. -/
theorem claimDaily_eligibility (user : User) (now amt : Int)
    (hnow : ∀ last, user.last_daily = some last → last ≤ now) :
    ((∃ a b, (claimDaily user now amt).1 = ClaimResult.granted a b) ↔
      (user.last_daily = none ∨ ∃ last, user.last_daily = some last ∧ 86400 ≤ now - last)) ∧
    ((user.last_daily = none ∨ ∃ last, user.last_daily = some last ∧ 86400 ≤ now - last) →
      claimDaily user now amt =
        (ClaimResult.granted amt (user.balance + amt),
         { user with balance := user.balance + amt,
                     total_earned := user.total_earned + amt,
                     last_daily := some now })) := by
  rcases hld : user.last_daily with _ | last
  · constructor
    · simp [claimDaily, hld]
    · intro _
      simp [claimDaily, hld]
  · have hle : last ≤ now := hnow last hld
    have hdiv : Int.fdiv (now - last) 86400 = (now - last) / 86400 :=
      Int.fdiv_eq_ediv _ (by norm_num)
    by_cases hc : now - last < 86400
    · have hcond : Int.fdiv (now - last) 86400 < 1 := by rw [hdiv]; omega
      constructor
      · simp only [claimDaily, hld, if_pos hcond]
        constructor
        · rintro ⟨a, b, hab⟩
          exact absurd hab (by simp)
        · rintro (h | ⟨last2, hl2, hge⟩)
          · exact absurd h (by simp)
          · injection hl2 with he
            omega
      · rintro (h | ⟨last2, hl2, hge⟩)
        · exact absurd h (by simp)
        · injection hl2 with he
          omega
    · have hcond : ¬ Int.fdiv (now - last) 86400 < 1 := by rw [hdiv]; omega
      constructor
      · simp only [claimDaily, hld, if_neg hcond]
        constructor
        · intro _
          exact Or.inr ⟨last, rfl, by omega⟩
        · intro _
          exact ⟨amt, user.balance + amt, rfl⟩
      · intro _
        simp only [claimDaily, hld, if_neg hcond]

/-- Witness for C3: a first-ever claim grants the reward and sets every field. -/
theorem claimDaily_eligibility_witness :
    claimDaily ⟨"u", 5, none, 7⟩ 100 1000 =
      (ClaimResult.granted 1000 (5 + 1000),
       { user_id := "u", balance := 5 + 1000, last_daily := some 100,
         total_earned := 7 + 1000 }) :=
  (claimDaily_eligibility ⟨"u", 5, none, 7⟩ 100 1000 (by simp)).2 (Or.inl rfl)

/-- Counterexample to claim C4: the spec's own exemplar pair — a successful
claim at 23:59 (second 86340 of day 0) followed by a claim at 00:01 the next
calendar day (second 86460) — is treated as Cooling-down by the code, not as
Eligible.  Python's `timedelta.days` is the floor of the elapsed time in
days, not a calendar-day difference, so the 2-minute gap gives `days = 0`
and the claim is refused with 23h 58m left. -/
theorem daily_boundary_not_eligible :
    claimDaily ⟨"u", 0, some 86340, 0⟩ 86460 1000 =
      (ClaimResult.cooldown 23 58, ⟨"u", 0, some 86340, 0⟩) ∧
    (86460 : Int) - 86340 < 86400 := by decide

/-- Claim C4 (amended): the implemented check `(now - last_daily).days < 1`
floors the elapsed time, so with `now` at or after `last_daily` the claim is
refused (Cooling-down) exactly when strictly less than 24 hours have
elapsed — it is equivalent to the strict 24-hour rule, and no pair of claim
times less than 24 hours apart is treated as Eligible. -/
theorem daily_check_strict_24h (user : User) (now amt last : Int)
    (hld : user.last_daily = some last) (hle : last ≤ now) :
    ((∃ h m, (claimDaily user now amt).1 = ClaimResult.cooldown h m) ↔ now - last < 86400) := by
  have hdiv : Int.fdiv (now - last) 86400 = (now - last) / 86400 :=
    Int.fdiv_eq_ediv _ (by norm_num)
  by_cases hc : now - last < 86400
  · have hcond : Int.fdiv (now - last) 86400 < 1 := by rw [hdiv]; omega
    simp only [claimDaily, hld, if_pos hcond]
    exact ⟨fun _ => hc, fun _ => ⟨_, _, rfl⟩⟩
  · have hcond : ¬ Int.fdiv (now - last) 86400 < 1 := by rw [hdiv]; omega
    simp only [claimDaily, hld, if_neg hcond]
    constructor
    · rintro ⟨h, m, habs⟩
      exact absurd habs (by simp)
    · intro h
      exact absurd h hc

/-- Witness for the amended C4: the 23:59 / 00:01 pair is on cooldown. -/
theorem daily_check_strict_24h_witness :
    ∃ h m, (claimDaily ⟨"u", 0, some 86340, 0⟩ 86460 1000).1 = ClaimResult.cooldown h m :=
  (daily_check_strict_24h ⟨"u", 0, some 86340, 0⟩ 86460 1000 86340 rfl (by decide)).mpr
    (by decide)

/-- Counterexample to claim C5: at the boundary point `now = last_daily` the
account is Cooling-down with remaining wait exactly 24 hours, whose whole
hours are 24, yet the code reports 0h 0m — `timedelta.seconds` drops the
whole-day component of the remaining duration. -/
theorem claimDaily_midnight_quirk :
    claimDaily ⟨"u", 5, some 1000, 2⟩ 1000 500 =
      (ClaimResult.cooldown 0 0, ⟨"u", 5, some 1000, 2⟩) ∧
    ((1000 + 86400 : Int) - 1000) / 3600 = 24 ∧ (0 : Int) ≠ 24 := by decide

/-- Claim C5 (amended): in the Cooling-down state with `now` strictly after
`last_daily`, `/daily` mutates nothing and returns the remaining wait
`(last_daily + 24h) - now` decomposed into whole hours and whole truncated
minutes with leftover seconds dropped; at the boundary `now = last_daily`
the code instead reports 0h 0m because the day component is dropped. -/
theorem claimDaily_cooldown_no_mutation (user : User) (now amt last : Int)
    (hld : user.last_daily = some last) (hlt : last < now) (hc : now - last < 86400) :
    claimDaily user now amt =
      (ClaimResult.cooldown (((last + 86400) - now) / 3600)
        ((((last + 86400) - now) % 3600) / 60), user) := by
  have hcond : Int.fdiv (now - last) 86400 < 1 := by
    rw [Int.fdiv_eq_ediv _ (by norm_num)]; omega
  have hmod : Int.emod ((last + 86400) - now) 86400 = (last + 86400) - now :=
    Int.emod_eq_of_lt (by omega) (by omega)
  simp only [claimDaily, hld, if_pos hcond, hmod]

/-- Witness for the amended C5: a claim 4000 seconds after the last one. -/
theorem claimDaily_cooldown_no_mutation_witness :
    claimDaily ⟨"u", 3, some 1000, 4⟩ 5000 500 =
      (ClaimResult.cooldown (((1000 + 86400) - 5000) / 3600)
        ((((1000 + 86400) - 5000) % 3600) / 60), ⟨"u", 3, some 1000, 4⟩) :=
  claimDaily_cooldown_no_mutation ⟨"u", 3, some 1000, 4⟩ 5000 500 1000 rfl (by decide)
    (by decide)

/-- Claim C6: `/roll` validates in source order with the first failure
winning and the account untouched on every failure: unparseable text that
is not the all sentinel gives `invalidStake`; then a resolved stake `≤ 0`
gives `nonPositiveStake`; then a resolved stake above the balance gives
`insufficientFunds`; and the all sentinel resolves to the whole balance. -/
theorem placeBet_validation_order (user : User) (amount : String) (ur br : Nat) :
    (pyLower amount ≠ "all" → pythonInt amount = none →
      placeBet user amount ur br = (Sum.inl BetError.invalidStake, user)) ∧
    (∀ bet, resolveStake user amount = some bet → bet ≤ 0 →
      placeBet user amount ur br = (Sum.inl BetError.nonPositiveStake, user)) ∧
    (∀ bet, resolveStake user amount = some bet → 0 < bet → user.balance < bet →
      placeBet user amount ur br = (Sum.inl BetError.insufficientFunds, user)) ∧
    (pyLower amount = "all" → resolveStake user amount = some user.balance) := by
  refine ⟨?_, ?_, ?_, ?_⟩
  · intro hna hpi
    have hres : resolveStake user amount = none := by
      simp [resolveStake, hna, hpi]
    simp [placeBet, hres]
  · intro bet hres hle
    simp [placeBet, hres, hle]
  · intro bet hres hpos hbal
    have h1 : ¬ bet ≤ 0 := by omega
    have h2 : bet > user.balance := hbal
    simp [placeBet, hres, h1, h2]
  · intro hall
    simp [resolveStake, hall]

/-- Witness for C6: the three failures and the sentinel on a balance of 100. -/
theorem placeBet_validation_order_witness :
    placeBet ⟨"u", 100, none, 0⟩ "abc" 1 1 = (Sum.inl BetError.invalidStake, ⟨"u", 100, none, 0⟩) ∧
    placeBet ⟨"u", 100, none, 0⟩ "-5" 1 1 =
      (Sum.inl BetError.nonPositiveStake, ⟨"u", 100, none, 0⟩) ∧
    placeBet ⟨"u", 100, none, 0⟩ "200" 1 1 =
      (Sum.inl BetError.insufficientFunds, ⟨"u", 100, none, 0⟩) ∧
    resolveStake ⟨"u", 100, none, 0⟩ "all" = some 100 :=
  ⟨(placeBet_validation_order ⟨"u", 100, none, 0⟩ "abc" 1 1).1 (by decide) (by decide),
   (placeBet_validation_order ⟨"u", 100, none, 0⟩ "-5" 1 1).2.1 (-5) (by decide) (by decide),
   (placeBet_validation_order ⟨"u", 100, none, 0⟩ "200" 1 1).2.2.1 200 (by decide) (by decide)
     (by decide),
   (placeBet_validation_order ⟨"u", 100, none, 0⟩ "all" 1 1).2.2.2 (by decide)⟩

/-- Helper: one operation adds exactly its granted reward to `total_earned`
(a successful `/daily` adds its amount; a cooldown refusal and every
`/roll`, whatever its outcome, add nothing). -/
theorem runOp_total_earned_eq (user : User) (op : Op) :
    (runOp user op).total_earned = user.total_earned + grantOf user op := by
  cases op with
  | dailyOp now amt =>
      rcases hld : user.last_daily with _ | last
      · simp [runOp, grantOf, claimDaily, hld]
      · by_cases hcond : Int.fdiv (now - last) 86400 < 1
        · simp [runOp, grantOf, claimDaily, hld, if_pos hcond]
        · simp [runOp, grantOf, claimDaily, hld, if_neg hcond]
  | betOp s ur br =>
      rcases hres : resolveStake user s with _ | bet
      · simp [runOp, grantOf, placeBet, hres]
      · simp only [runOp, grantOf, placeBet, hres]
        split_ifs <;> simp

/-- Helper: over a sequence, `total_earned` grows by exactly the granted sum. -/
theorem runOps_total_earned_eq (user : User) (ops : List Op) :
    (runOps user ops).total_earned = user.total_earned + grantedTotal user ops := by
  induction ops generalizing user with
  | nil => simp [runOps, grantedTotal]
  | cons op ops ih =>
      have h1 : runOps user (op :: ops) = runOps (runOp user op) ops := rfl
      rw [h1, ih (runOp user op), runOp_total_earned_eq, grantedTotal]
      ring

/-- Helper: a granted reward is nonnegative when the configured amount is. -/
theorem grantOf_nonneg (user : User) (op : Op)
    (h : ∀ now amt, op = Op.dailyOp now amt → 0 ≤ amt) : 0 ≤ grantOf user op := by
  cases op with
  | dailyOp now amt =>
      have := h now amt rfl
      rcases hld : user.last_daily with _ | last
      · simpa [grantOf, claimDaily, hld] using this
      · by_cases hcond : Int.fdiv (now - last) 86400 < 1
        · simp [grantOf, claimDaily, hld, if_pos hcond]
        · simpa [grantOf, claimDaily, hld, if_neg hcond] using this
  | betOp s ur br => simp [grantOf]

/-- Helper: the granted sum of a sequence is nonnegative when every daily
amount appearing in it is. -/
theorem grantedTotal_nonneg (user : User) (ops : List Op)
    (h : ∀ now amt, Op.dailyOp now amt ∈ ops → 0 ≤ amt) : 0 ≤ grantedTotal user ops := by
  induction ops generalizing user with
  | nil => simp [grantedTotal]
  | cons op ops ih =>
      have h1 : 0 ≤ grantOf user op :=
        grantOf_nonneg user op (fun now amt he => h now amt (he ▸ List.mem_cons_self op ops))
      have h2 : 0 ≤ grantedTotal (runOp user op) ops :=
        ih (runOp user op) (fun now amt hm => h now amt (List.mem_cons_of_mem op hm))
      have : grantedTotal user (op :: ops) = grantOf user op + grantedTotal (runOp user op) ops := rfl
      omega

/-- Claim C7: starting from a fresh account, `total_earned` after any
sequence of `/daily` and `/roll` operations equals the sum of the reward
amounts granted by the successful `/daily` calls; no `/roll` ever changes
`total_earned`; and (with nonnegative reward amounts) `total_earned` is
monotonically non-decreasing along the sequence. -/
theorem total_earned_accounting (user : User) (ops pre suf : List Op)
    (s : String) (ur br : Nat)
    (hfresh : user.total_earned = 0)
    (hamt : ∀ now amt, Op.dailyOp now amt ∈ ops → 0 ≤ amt)
    (hsplit : ops = pre ++ suf) :
    (runOps user ops).total_earned = grantedTotal user ops ∧
    ((placeBet user s ur br).2).total_earned = user.total_earned ∧
    (runOps user pre).total_earned ≤ (runOps user ops).total_earned := by
  subst hsplit
  refine ⟨by rw [runOps_total_earned_eq, hfresh, zero_add], ?_, ?_⟩
  · have h := runOp_total_earned_eq user (Op.betOp s ur br)
    have h2 : grantOf user (Op.betOp s ur br) = 0 := rfl
    rw [h2, add_zero] at h
    exact h
  · have happ : runOps user (pre ++ suf) = runOps (runOps user pre) suf := by
      simp [runOps, List.foldl_append]
    rw [happ, runOps_total_earned_eq (runOps user pre) suf]
    have : 0 ≤ grantedTotal (runOps user pre) suf :=
      grantedTotal_nonneg (runOps user pre) suf
        (fun now amt hm => hamt now amt (List.mem_append_right pre hm))
    omega

/-- Witness for C7: a successful claim of 1000 followed by a losing all-in. -/
theorem total_earned_accounting_witness :
    (runOps ⟨"u", 0, none, 0⟩ [Op.dailyOp 100 1000, Op.betOp "all" 6 1]).total_earned =
      grantedTotal ⟨"u", 0, none, 0⟩ [Op.dailyOp 100 1000, Op.betOp "all" 6 1] ∧
    ((placeBet ⟨"u", 0, none, 0⟩ "7" 2 2).2).total_earned = (0 : Int) ∧
    (runOps ⟨"u", 0, none, 0⟩ [Op.dailyOp 100 1000]).total_earned ≤
      (runOps ⟨"u", 0, none, 0⟩ [Op.dailyOp 100 1000, Op.betOp "all" 6 1]).total_earned :=
  total_earned_accounting ⟨"u", 0, none, 0⟩ [Op.dailyOp 100 1000, Op.betOp "all" 6 1]
    [Op.dailyOp 100 1000] [Op.betOp "all" 6 1] "7" 2 2 rfl
    (by
      intro now amt hm
      simp only [List.mem_cons, List.not_mem_nil, or_false] at hm
      rcases hm with h | h
      · injection h with h1 h2
        omega
      · exact absurd h (by simp))
    rfl

/-- Claim C8: `/balance` on a never-seen identifier returns 0 and leaves the
store holding an account for it with zero balance, zero `total_earned` and
`last_daily` absent; the operation has no failure path. -/
theorem getBalance_fresh_account (store : Store) (uid : String) (habs : store uid = none) :
    (getBalance store uid).1 = 0 ∧
    (getBalance store uid).2 uid =
      some { user_id := uid, balance := 0, last_daily := none, total_earned := 0 } := by
  simp [getBalance, get_user, habs]

/-- Witness for C8: the empty store and the identifier of a new user. -/
theorem getBalance_fresh_account_witness :
    (getBalance (fun _ => none : Store) "alice").1 = 0 ∧
    (getBalance (fun _ => none : Store) "alice").2 "alice" =
      some { user_id := "alice", balance := 0, last_daily := none, total_earned := 0 } :=
  getBalance_fresh_account (fun _ => none : Store) "alice" rfl

/-- Claim C9: with a balance of 0, a `/roll` on the all sentinel resolves
the stake to 0 and fails with `nonPositiveStake` (not `insufficientFunds`),
leaving the account unchanged. -/
theorem placeBet_all_zero_balance (user : User) (ur br : Nat) (h0 : user.balance = 0) :
    placeBet user "all" ur br = (Sum.inl BetError.nonPositiveStake, user) := by
  have hres : resolveStake user "all" = some user.balance := by
    have h : pyLower "all" = "all" := by decide
    simp [resolveStake, h]
  simp [placeBet, hres, h0]

/-- Witness for C9: an all-in from an empty account. -/
theorem placeBet_all_zero_balance_witness :
    placeBet ⟨"u", 0, none, 0⟩ "all" 3 4 = (Sum.inl BetError.nonPositiveStake, ⟨"u", 0, none, 0⟩) :=
  placeBet_all_zero_balance ⟨"u", 0, none, 0⟩ 3 4 rfl

/-- Claim C10: the all sentinel is matched case-insensitively — any stake
text whose lowercasing is the sentinel resolves to the whole current
balance and never fails with `invalidStake`. -/
theorem all_sentinel_case_insensitive (user : User) (amount : String) (ur br : Nat)
    (hall : pyLower amount = "all") :
    resolveStake user amount = some user.balance ∧
    (placeBet user amount ur br).1 ≠ Sum.inl BetError.invalidStake := by
  have hres : resolveStake user amount = some user.balance := by
    simp [resolveStake, hall]
  refine ⟨hres, ?_⟩
  simp only [placeBet, hres]
  split_ifs <;> simp

/-- Witness for C10: the upper-case sentinel on a balance of 250. -/
theorem all_sentinel_case_insensitive_witness :
    resolveStake ⟨"u", 250, none, 0⟩ "ALL" = some 250 ∧
    (placeBet ⟨"u", 250, none, 0⟩ "ALL" 2 2).1 ≠ Sum.inl BetError.invalidStake :=
  all_sentinel_case_insensitive ⟨"u", 250, none, 0⟩ "ALL" 2 2 (by decide)

end Pennyboy
